import Mathlib

/-!
# Verification of the CFE-HYDRO selective-interpolation engine

Shallow embedding of the interpolation, metric, efficiency-scoring,
simulation-bookkeeping and streaming-buffer code of the repository
(`src/Analisa dados sensoriados.py`, `src/app/app.py`,
`src/Gráficos_Estimativa de Campo Compressiva.py`), together with
theorems settling the specification claims.

Modelling conventions:
* Python floats are modelled by `ℚ` (exact arithmetic); `float('nan')` is
  modelled by `none` in `Option ℚ`.  Functions that genuinely compute
  transcendental values (`math.log`, `math.sqrt`, `10 ** x`, `np.log10`)
  are modelled over `ℝ` and are `noncomputable`.
* A Python list of floats-or-NaN is `List (Option ℚ)`.
* Exceptions are modelled with `Except`/`Option`: a function that the
  source wraps in `try/except` is split into a body returning
  `Except`/`Option` and a handler.
-/

/-! ## SimpleInterpolator (batch path, `Analisa dados sensoriados.py` lines 48-104) -/

/--
Models the per-element re-coercion performed at the top of
`SimpleInterpolator.linear_interpolation` / `conservative_interpolation`:

  `float(x) if x is not None and str(x).replace(',', '').replace('.', '').isdigit() else float('nan')`

On the inputs these functions receive (Python floats or NaN, produced by
`_converter_para_float` / the masked dataframe), `str(x)` of a finite
float in the plain-decimal printing range consists of digits and a dot
exactly when the float is non-negative; a leading `'-'` makes `isdigit()`
false.  Hence: NaN stays NaN, a non-negative value is kept, and a
negative value is coerced to NaN.  (Floats printed in scientific
notation, i.e. of magnitude outside `[1e-4, 1e16)`, would also be
rejected; that float-formatting subtlety is outside this exact-rational
model and outside the sensor domain.)
-/
def coerceValue (v : Option ℚ) : Option ℚ :=
  v.bind fun q => if 0 ≤ q then some q else none

/--
The value written at index `j` when bridging the gap between known
indices `a` and `b`:
`start_val + (end_val - start_val) * (current_id - start_id) / (end_id - start_id)`
(`linear_interpolation` lines 66-75, `conservative_interpolation` lines 94-102).
-/
def interpValue (ids : List ℚ) (values : List (Option ℚ)) (a b j : ℕ) : ℚ :=
  ((values.getD a none).getD 0) +
    (((values.getD b none).getD 0) - ((values.getD a none).getD 0)) *
      ((ids.getD j 0 - ids.getD a 0) / (ids.getD b 0 - ids.getD a 0))

/--
The inner loop `for j in range(start_idx + 1, end_idx): result[j] = ...`:
every index strictly between `a` and `b` receives the interpolated value
(the written value depends only on `ids` and `values`, never on the
partially-written result, so the loop is rendered pointwise).  The
second argument is the index of the head of the list being rebuilt.
-/
def fillSegment (ids : List ℚ) (values : List (Option ℚ)) (a b : ℕ) :
    List (Option ℚ) → ℕ → List (Option ℚ)
  | [], _ => []
  | v :: rest, j =>
    (if a < j ∧ j < b then some (interpValue ids values a b j) else v) ::
      fillSegment ids values a b rest (j + 1)

/--
The outer loop `for i in range(len(known_indices) - 1)`: walk over
consecutive pairs of known indices and, when `cond` holds for the pair,
overwrite the gap between them (`linear_interpolation` lines 61-75,
`conservative_interpolation` lines 88-102).
-/
def fillPairs (ids : List ℚ) (values : List (Option ℚ)) (cond : ℕ → ℕ → Bool) :
    List ℕ → List (Option ℚ) → List (Option ℚ)
  | a :: b :: rest, res =>
      fillPairs ids values cond (b :: rest)
        (if cond a b then fillSegment ids values a b res 0 else res)
  | _, res => res

/-- `known_indices = [i for i, val in enumerate(values) if not math.isnan(val)]`. -/
def knownIndices (values : List (Option ℚ)) : List ℕ :=
  (List.range values.length).filter fun i => (values.getD i none).isSome

/--
`SimpleInterpolator.linear_interpolation(ids, values)` (lines 51-77):
coerce the values, then for each pair of consecutive known indices with
`end_idx - start_idx > 1` fill the gap by parametric linear
interpolation on the `ids` axis.
-/
def linear_interpolation (ids : List ℚ) (values0 : List (Option ℚ)) : List (Option ℚ) :=
  fillPairs ids (values0.map coerceValue) (fun a b => decide (1 < b - a))
    (knownIndices (values0.map coerceValue)) (values0.map coerceValue)

/--
`SimpleInterpolator.conservative_interpolation(ids, values, max_gap=2)`
(lines 79-104): identical to `linear_interpolation` except that a pair
of consecutive known indices is bridged only when
`1 < end_idx - start_idx <= max_gap` (note: `gap_size` in the source is
the *distance between the known indices*, which is one more than the
number of unknown positions between them).
-/
def conservative_interpolation (ids : List ℚ) (values0 : List (Option ℚ)) (max_gap : ℕ) :
    List (Option ℚ) :=
  fillPairs ids (values0.map coerceValue)
    (fun a b => decide (1 < b - a) && decide (b - a ≤ max_gap))
    (knownIndices (values0.map coerceValue)) (values0.map coerceValue)

/-! ## MetricCalculator (`Analisa dados sensoriados.py` lines 106-163) -/

/--
The pairing loop shared by `MetricCalculator.r2_score` and
`MetricCalculator.rmse` (lines 113-126 / 145-157): iterate `i` over
`range(min(len(y_true), len(y_pred)))` — rendered as `List.zip`, which
truncates to the shorter list — coerce both entries
(`float(str(v).replace(',', '.'))`, the identity on finite floats,
NaN for `None`/NaN) and keep the pair only when both are valid numbers.
-/
def cleanPairs (y_true y_pred : List (Option ℚ)) : List (ℚ × ℚ) :=
  (y_true.zip y_pred).filterMap fun p =>
    match p.1, p.2 with
    | some a, some b => some (a, b)
    | _, _ => none

/--
`MetricCalculator.r2_score(y_true, y_pred)` (lines 109-139): NaN
(`none`) when fewer than 2 valid pairs remain, otherwise
`1 - ss_res / ss_tot` against the mean of the valid originals, with the
zero-variance rule `ss_tot == 0 → (1.0 if ss_res == 0 else 0.0)`.
-/
def r2_score (y_true y_pred : List (Option ℚ)) : Option ℚ :=
  let pairs := cleanPairs y_true y_pred
  if pairs.length < 2 then none
  else
    let y_mean : ℚ := (pairs.map Prod.fst).sum / pairs.length
    let ss_tot : ℚ := (pairs.map fun p => (p.1 - y_mean) ^ 2).sum
    let ss_res : ℚ := (pairs.map fun p => (p.1 - p.2) ^ 2).sum
    if ss_tot = 0 then some (if ss_res = 0 then 1 else 0)
    else some (1 - ss_res / ss_tot)

/--
The radicand of `MetricCalculator.rmse` (lines 141-163): NaN (`none`)
when no valid pair remains, otherwise the mean of squared differences
over the valid pairs (the `mse` local of the source).
-/
def rmse_radicand (y_true y_pred : List (Option ℚ)) : Option ℚ :=
  let pairs := cleanPairs y_true y_pred
  if pairs.length < 1 then none
  else some ((pairs.map fun p => (p.1 - p.2) ^ 2).sum / pairs.length)

/-- `MetricCalculator.rmse` returns `math.sqrt(mse)` (line 163). -/
noncomputable def rmse (y_true y_pred : List (Option ℚ)) : Option ℝ :=
  (rmse_radicand y_true y_pred).map fun q => Real.sqrt (q : ℝ)

/-! ## Efficiency scoring (`Analisa dados sensoriados.py` lines 442-447) -/

/--
`AnalisadorInterpolacaoCorrigido._calcular_eficiencia(r2, percentual_transmitido)`:
`0` when `r2` is NaN (`none`) or negative, otherwise
`r2 * math.log(1 / (percentual_transmitido / 100 + 0.01))`.
-/
noncomputable def calcular_eficiencia (r2 : Option ℝ) (percentual_transmitido : ℝ) : ℝ :=
  match r2 with
  | none => 0
  | some r => if r < 0 then 0 else r * Real.log (1 / (percentual_transmitido / 100 + 0.01))

/-! ## Transmission simulation (`Analisa dados sensoriados.py` lines 258-289, 400-419) -/

/-- A dataframe cell: a numeric cell (possibly NaN) or a raw text cell. -/
inductive Cell
  | num : Option ℚ → Cell
  | text : String → Cell
deriving DecidableEq

/-- `pd.isna` on a cell: true exactly for a numeric NaN. -/
def cellIsNA : Cell → Bool
  | .num none => true
  | _ => false

/-- A dataframe: named columns of equal length (list of rows per column). -/
abbrev DataFrame := List (String × List Cell)

/--
The masking of one column in `simular_transmissao_intervalo`
(lines 272-281): position `i` keeps its value iff `i % intervalo == 0`,
otherwise it is replaced by NaN (`np.where(mask_transmitidos, valores_originais, np.nan)`).
-/
def maskColumn (intervalo : ℕ) (col : List Cell) : List Cell :=
  ((List.range col.length).zip col).map fun p =>
    if p.1 % intervalo = 0 then p.2 else Cell.num none

/-- The columns masked by `simular_transmissao_intervalo` (line 276). -/
def colunas_numericas : List String := ["temperatura", "ph", "ec", "od"]

/--
`AnalisadorInterpolacaoCorrigido.simular_transmissao_intervalo(intervalo)`
(lines 258-289) restricted to its effect on the dataframe: each of the
columns named in `colunas_numericas` is masked positionally; every other
column (including a column named `"temp"`, and `"id"`, whose numeric
normalisation at lines 264-269 touches only the `id` column) is left
unchanged.
-/
def simular_transmissao_intervalo (intervalo : ℕ) (df : DataFrame) : DataFrame :=
  df.map fun c => if c.1 ∈ colunas_numericas then (c.1, maskColumn intervalo c.2) else c

/-- `pontos_transmitidos = mask_transmitidos.sum()` (line 283): the number of retained positions. -/
def pontos_transmitidos_mask (n intervalo : ℕ) : ℕ :=
  ((List.range n).filter fun i => i % intervalo = 0).length

/-- `percentual = (pontos_transmitidos / total_pontos) * 100` (line 285), the printed fraction. -/
def percentual_mask (n intervalo : ℕ) : ℚ :=
  (pontos_transmitidos_mask n intervalo : ℚ) / (n : ℚ) * 100

/-- Column lookup by name, as `'temp' in df_simulado.columns` plus `df_simulado['temp']`. -/
def findColumn (df : DataFrame) (name : String) : Option (List Cell) :=
  (df.find? fun c => c.1 == name).map Prod.snd

/-- `len(df_simulado)`: the number of rows of the dataframe. -/
def nrows (df : DataFrame) : ℕ :=
  match df with
  | [] => 0
  | c :: _ => c.2.length

/--
The `pontos_transmitidos` field stored into `resultado_intervalo` by
`executar_simulacao` (line 403):
`(~pd.isna(df_simulado['temp'])).sum() if 'temp' in df_simulado.columns else 0` —
note it reads a column named `'temp'`, not `'temperatura'`.
-/
def pontos_transmitidos_recorded (df_sim : DataFrame) : ℕ :=
  match findColumn df_sim "temp" with
  | some col => (col.filter fun c => !cellIsNA c).length
  | none => 0

/--
The `percentual_transmitido` field stored into `resultado_intervalo` by
`executar_simulacao` (lines 404-411): `0` unless a column named `'temp'`
exists, in which case `(count of non-NA cells of 'temp') / len(df) * 100`.
This recorded field is the one later read by
`_encontrar_melhores_intervalos_eficiencia` (line 466) for efficiency ranking.
-/
def percentual_transmitido_recorded (df_sim : DataFrame) : ℚ :=
  match findColumn df_sim "temp" with
  | some col => ((col.filter fun c => !cellIsNA c).length : ℚ) / (nrows df_sim : ℚ) * 100
  | none => 0

/-! ## InterpoladorSeletivo and GerenciadorDados (`app/app.py`) -/

/--
One linear-search step of `np.interp(t, xp, fp)` over the knot list
(exact-arithmetic semantics, assuming `xp` ascending as `np.interp`
requires): clamp to `fp[0]` at or below the first knot, interpolate
linearly inside each knot interval, clamp to the last `fp` beyond the
last knot.
-/
def np_interp_point (t : ℚ) : List ℚ → List ℚ → ℚ
  | x0 :: x1 :: xs, f0 :: f1 :: fs =>
    if t ≤ x0 then f0
    else if t ≤ x1 then f0 + (f1 - f0) * (t - x0) / (x1 - x0)
    else np_interp_point t (x1 :: xs) (f1 :: fs)
  | [_], f0 :: _ => f0
  | _, _ => 0

/-- `np.interp(x_new, x_known, y_known)`: pointwise over the query axis. -/
def np_interp (x_new xp fp : List ℚ) : List ℚ :=
  x_new.map fun t => np_interp_point t xp fp

/-- `np.clip(v, lo, hi)` for scalars. -/
def np_clip (lo hi v : ℚ) : ℚ := max lo (min v hi)

/--
`InterpoladorSeletivo.interpolar(x_known, y_known, x_new, metodo, sensor_type)`
(`app/app.py` lines 78-110).  `spline` models the external
`scipy.interpolate.splrep`/`splev` pair of the `'polynomial'` branch;
`none` models its raising an exception, which the source catches and
answers with `np.maximum(np.interp(...), 0)`.

* fewer than 2 known points ⇒ `np.full_like(x_new, y_known[0] if len(y_known) > 0 else np.nan)`;
* `metodo == 'logarithmic'` ⇒ `np.clip(np.interp(x_new, x_known, y_known), 0, 14)`
  (plain linear interpolation of the pH values themselves);
* `metodo == 'polynomial'` and `sensor_type in ['ec', 'do']` ⇒ spline
  clipped to `[0, 20]`, falling back to linear clamped at 0 on failure;
* otherwise ⇒ `np.interp(x_new, x_known, y_known)`.
-/
def interpolar (spline : List ℚ → List ℚ → List ℚ → Option (List ℚ))
    (x_known y_known x_new : List ℚ) (metodo : String) (sensor_type : Option String) :
    List (Option ℚ) :=
  if x_known.length < 2 then
    x_new.map fun _ => y_known.head?
  else if metodo = "logarithmic" then
    (np_interp x_new x_known y_known).map fun v => some (np_clip 0 14 v)
  else if metodo = "polynomial" ∧ (sensor_type = some "ec" ∨ sensor_type = some "do") then
    match spline x_known y_known x_new with
    | some y_interp => y_interp.map fun v => some (np_clip 0 20 v)
    | none => (np_interp x_new x_known y_known).map fun v => some (max v 0)
  else
    (np_interp x_new x_known y_known).map some

/-- The four sensor buffers of `GerenciadorDados.__init__` (`dissolved_oxygen` is the `'do'` key). -/
inductive Sensor
  | temperature
  | ph
  | ec
  | dissolved_oxygen
deriving DecidableEq

/-- One row of a per-sensor dataframe: `{'timestamp': ..., 'value': ..., 'interpolation': ...}`. -/
structure SensorRow where
  timestamp : ℚ
  value : ℚ
  interpolation : String

/-- The mutable state of `GerenciadorDados` touched by `adicionar_ponto`. -/
structure Gerenciador where
  sensor_data : Sensor → List SensorRow
  messages_received : ℕ
  last_message_time : Option ℚ

/-- `GerenciadorDados.__init__`: empty per-sensor frames, zero counter, no message time. -/
def initGerenciador : Gerenciador :=
  { sensor_data := fun _ => []
    messages_received := 0
    last_message_time := none }

/--
The `try`-block body of `GerenciadorDados.adicionar_ponto`
(`app/app.py` lines 125-140).  `value = none` models a value for which
`float(value)` raises `ValueError`/`TypeError` (the error is raised
while building `new_row`, before any state is mutated); `now` models
`datetime.now()`.  On success: append the row, keep only the last 1000
rows (`iloc[-1000:]`) when the frame exceeds 1000 rows, bump
`messages_received` and stamp `last_message_time`.
-/
def adicionar_ponto_body (now : ℚ) (g : Gerenciador) (sensor_type : Sensor)
    (timestamp : ℚ) (value : Option ℚ) (interpolation_type : String) :
    Except String Gerenciador :=
  let df := g.sensor_data sensor_type
  match value with
  | none => .error "could not convert value to float"
  | some v =>
    let new_row : SensorRow := ⟨timestamp, v, interpolation_type⟩
    let updated := df ++ [new_row]
    let capped := if 1000 < updated.length then updated.drop (updated.length - 1000) else updated
    .ok { sensor_data := fun s => if s = sensor_type then capped else g.sensor_data s
          messages_received := g.messages_received + 1
          last_message_time := some now }

/--
`GerenciadorDados.adicionar_ponto` (lines 123-143): the body wrapped in
`try ... except (ValueError, TypeError)`; the handler only logs, so on
failure the state is returned unchanged.
-/
def adicionar_ponto (now : ℚ) (g : Gerenciador) (sensor_type : Sensor)
    (timestamp : ℚ) (value : Option ℚ) (interpolation_type : String) : Gerenciador :=
  match adicionar_ponto_body now g sensor_type timestamp value interpolation_type with
  | .ok g' => g'
  | .error _ => g

/--
The regular grid of `obter_dados_interpolados` (`app/app.py` line 166):
`pd.date_range(start=start_time, end=end_time, freq=...)` produces
`start, start + step, ...` up to and including the last point `≤ stop`.
-/
def regular_times (start stop step : ℚ) : List ℚ :=
  (List.range (Nat.floor ((stop - start) / step) + 1)).map fun k : ℕ => start + (k : ℚ) * step

/-! ## Logarithmic pH interpolation (`Gráficos_Estimativa de Campo Compressiva.py` lines 75-101) -/

/--
`interpolar_logaritmica_npontos(ph_valores, espacamento)`: positions
`i % espacamento == 0` keep their value; a position whose next
transmitted index falls beyond the series repeats the previous
transmitted value; every other position converts the two neighbouring
transmitted pH values to concentrations `10 ** (-pH)`, interpolates the
concentrations linearly and converts back with `-np.log10` (no clamp).
-/
noncomputable def interpolar_logaritmica_npontos (ph_valores : List ℝ) (espacamento : ℕ) :
    List ℝ :=
  (List.range ph_valores.length).map fun i =>
    if i % espacamento = 0 then ph_valores.getD i 0
    else
      let idx_anterior := i - i % espacamento
      let idx_proximo := idx_anterior + espacamento
      if ph_valores.length ≤ idx_proximo then ph_valores.getD idx_anterior 0
      else
        let h_anterior := (10 : ℝ) ^ (-(ph_valores.getD idx_anterior 0))
        let h_proximo := (10 : ℝ) ^ (-(ph_valores.getD idx_proximo 0))
        let fator := ((i - idx_anterior : ℕ) : ℝ) / (espacamento : ℝ);
        -Real.logb 10 (h_anterior + fator * (h_proximo - h_anterior))

/-! ## Helper lemmas: coercion and `getD` -/

lemma coerceValue_none : coerceValue none = none := rfl

lemma coerceValue_some {q : ℚ} (h : 0 ≤ q) : coerceValue (some q) = some q := by
  simp [coerceValue, h]

lemma getD_map_coerceValue (l : List (Option ℚ)) (i : ℕ) :
    (l.map coerceValue).getD i none = coerceValue (l.getD i none) := by
  induction l generalizing i with
  | nil => simp [coerceValue]
  | cons v rest ih =>
    cases i with
    | zero => simp
    | succ j => simpa using ih j

lemma map_coerceValue_id {l : List (Option ℚ)} (h : ∀ q : ℚ, some q ∈ l → 0 ≤ q) :
    l.map coerceValue = l := by
  induction l with
  | nil => rfl
  | cons v rest ih =>
    have hrest : rest.map coerceValue = rest :=
      ih fun q hq => h q (List.mem_cons_of_mem _ hq)
    cases v with
    | none => simp [hrest, coerceValue]
    | some q => simp [hrest, coerceValue_some (h q (List.mem_cons_self _ _))]

lemma lt_length_of_getD_eq_some {α : Type} {l : List (Option α)} {i : ℕ} {a : α}
    (h : l.getD i none = some a) : i < l.length := by
  by_contra hlen
  rw [List.getD_eq_default _ _ (Nat.le_of_not_lt hlen)] at h
  exact Option.noConfusion h

lemma getD_map_of_lt {α β : Type} (f : α → β) (l : List α) {i : ℕ} (h : i < l.length)
    (d : α) (d' : β) : (l.map f).getD i d' = f (l.getD i d) := by
  rw [List.getD_eq_getElem _ _ (by simpa using h), List.getD_eq_getElem _ _ h,
    List.getElem_map]

lemma two_le_length_of_mem_ne {α : Type} {l : List α} {a b : α}
    (ha : a ∈ l) (hb : b ∈ l) (hab : a ≠ b) : 2 ≤ l.length := by
  match l, ha with
  | [x], ha =>
    have ha' : a = x := List.mem_singleton.mp ha
    have hb' : b = x := List.mem_singleton.mp hb
    exact absurd (ha'.trans hb'.symm) hab
  | x :: y :: rest, _ => simp [Nat.succ_le_succ, Nat.le_add_left]

/-! ## Helper lemmas: `fillSegment` and `fillPairs` -/

lemma fillSegment_length (ids : List ℚ) (values : List (Option ℚ)) (a b : ℕ) :
    ∀ (res : List (Option ℚ)) (j0 : ℕ),
      (fillSegment ids values a b res j0).length = res.length := by
  intro res
  induction res with
  | nil => intro j0; rfl
  | cons v rest ih => intro j0; simp [fillSegment, ih]

lemma fillSegment_getD (ids : List ℚ) (values : List (Option ℚ)) (a b : ℕ) :
    ∀ (res : List (Option ℚ)) (j0 k : ℕ),
      (fillSegment ids values a b res j0).getD k none =
        if a < j0 + k ∧ j0 + k < b ∧ k < res.length then
          some (interpValue ids values a b (j0 + k))
        else res.getD k none := by
  intro res
  induction res with
  | nil => intro j0 k; simp [fillSegment]
  | cons v rest ih =>
    intro j0 k
    cases k with
    | zero =>
      by_cases hab : a < j0 ∧ j0 < b
      · simp [fillSegment, hab]
      · have : ¬(a < j0 + 0 ∧ j0 + 0 < b ∧ 0 < (v :: rest).length) := by
          simpa using fun h1 h2 => hab ⟨h1, h2⟩
        simp only [fillSegment, List.getD_cons_zero, if_neg this]
        simp [if_neg hab]
    | succ k' =>
      simp only [fillSegment, List.getD_cons_succ, List.length_cons]
      rw [ih (j0 + 1) k', show j0 + 1 + k' = j0 + (k' + 1) from by omega]
      by_cases hcond : a < j0 + (k' + 1) ∧ j0 + (k' + 1) < b ∧ k' < rest.length
      · rw [if_pos hcond, if_pos (by omega)]
      · rw [if_neg hcond, if_neg (by omega)]

lemma fillPairs_length (ids : List ℚ) (values : List (Option ℚ)) (cond : ℕ → ℕ → Bool) :
    ∀ (l : List ℕ) (res : List (Option ℚ)),
      (fillPairs ids values cond l res).length = res.length := by
  intro l
  induction l with
  | nil => intro res; rfl
  | cons a t ih =>
    intro res
    cases t with
    | nil => rfl
    | cons b rest =>
      simp only [fillPairs]
      rw [ih]
      by_cases h : cond a b
      · simp [h, fillSegment_length]
      · simp [h]

/-- `p` and `q` occur as consecutive elements of `l`. -/
def Consecutive (p q : ℕ) (l : List ℕ) : Prop :=
  ∃ l1 l2, l = l1 ++ p :: q :: l2

lemma Consecutive.cons {p q x : ℕ} {t : List ℕ} (h : Consecutive p q t) :
    Consecutive p q (x :: t) := by
  obtain ⟨l1, l2, rfl⟩ := h
  exact ⟨x :: l1, l2, rfl⟩

lemma Consecutive.mem₁ {p q : ℕ} {l : List ℕ} (h : Consecutive p q l) : p ∈ l := by
  obtain ⟨l1, l2, rfl⟩ := h
  simp

lemma Consecutive.mem₂ {p q : ℕ} {l : List ℕ} (h : Consecutive p q l) : q ∈ l := by
  obtain ⟨l1, l2, rfl⟩ := h
  simp

lemma fillPairs_untouched (ids : List ℚ) (values : List (Option ℚ)) (cond : ℕ → ℕ → Bool) :
    ∀ (l : List ℕ) (res : List (Option ℚ)) (j : ℕ),
      (∀ p q, Consecutive p q l → ¬(p < j ∧ j < q)) →
      (fillPairs ids values cond l res).getD j none = res.getD j none := by
  intro l
  induction l with
  | nil => intro res j _; rfl
  | cons a t ih =>
    intro res j hnc
    cases t with
    | nil => rfl
    | cons b rest =>
      have hab : ¬(a < j ∧ j < b) := hnc a b ⟨[], rest, rfl⟩
      have hstep :
          (if cond a b then fillSegment ids values a b res 0 else res).getD j none =
            res.getD j none := by
        by_cases hc : cond a b
        · rw [if_pos hc, fillSegment_getD]
          rw [if_neg (by rintro ⟨h1, h2, _⟩; exact hab ⟨by omega, by omega⟩)]
        · rw [if_neg hc]
      simp only [fillPairs]
      rw [ih _ j fun p q hpq => hnc p q hpq.cons, hstep]

lemma fillPairs_covered (ids : List ℚ) (values : List (Option ℚ)) (cond : ℕ → ℕ → Bool) :
    ∀ (l : List ℕ) (res : List (Option ℚ)) (j a b : ℕ),
      l.Pairwise (· < ·) → Consecutive a b l → a < j → j < b → j < res.length →
      (fillPairs ids values cond l res).getD j none =
        if cond a b then some (interpValue ids values a b j) else res.getD j none := by
  intro l
  induction l with
  | nil =>
    intro res j a b _ hcons _ _ _
    obtain ⟨l1, l2, h⟩ := hcons
    exact absurd h (by simp)
  | cons x t ih =>
    intro res j a b hpw hcons haj hjb hjres
    obtain ⟨l1, l2, hsplit⟩ := hcons
    cases l1 with
    | nil =>
      -- the list starts with the pair `a, b` itself
      obtain ⟨rfl, rfl⟩ : x = a ∧ t = b :: l2 := by simpa using hsplit
      simp only [fillPairs]
      have hrest : ∀ p q, Consecutive p q (b :: l2) → ¬(p < j ∧ j < q) := by
        intro p q hpq hcontra
        have hp : p ∈ b :: l2 := hpq.mem₁
        have hble : b ≤ p := by
          rcases List.mem_cons.mp hp with h | h
          · omega
          · exact Nat.le_of_lt (List.rel_of_pairwise_cons (List.pairwise_cons.mp hpw).2 h)
        omega
      rw [fillPairs_untouched ids values cond _ _ j hrest]
      by_cases hc : cond x b
      · rw [if_pos hc, if_pos hc, fillSegment_getD,
          if_pos (by simpa using ⟨haj, hjb, hjres⟩), Nat.zero_add]
      · rw [if_neg hc, if_neg hc]
    | cons y l1' =>
      -- the first processed pair lies inside `y :: l1'`, before `a`
      obtain ⟨rfl, ht⟩ : x = y ∧ t = l1' ++ a :: b :: l2 := by simpa using hsplit
      have htcons : Consecutive a b t := ⟨l1', l2, ht⟩
      have hta : a ∈ t := htcons.mem₁
      cases t with
      | nil => simp at hta
      | cons z t' =>
        have hza : z ≤ a := by
          rcases List.mem_cons.mp hta with h | h
          · omega
          · exact Nat.le_of_lt (List.rel_of_pairwise_cons (List.pairwise_cons.mp hpw).2 h)
        have hstep :
            (if cond x z then fillSegment ids values x z res 0 else res).getD j none =
              res.getD j none := by
          by_cases hc : cond x z
          · rw [if_pos hc, fillSegment_getD, if_neg (by omega)]
          · rw [if_neg hc]
        simp only [fillPairs]
        rw [ih _ j a b (List.pairwise_cons.mp hpw).2 htcons haj hjb
          (by rwa [show (if cond x z then fillSegment ids values x z res 0 else res).length =
              res.length from by
            by_cases hc : cond x z
            · simp [hc, fillSegment_length]
            · simp [hc]]),
          hstep]

lemma consecutive_no_mid {l : List ℕ} {a b : ℕ} (hpw : l.Pairwise (· < ·))
    (hcons : Consecutive a b l) : ∀ x ∈ l, ¬(a < x ∧ x < b) := by
  obtain ⟨l1, l2, rfl⟩ := hcons
  intro x hx hcontra
  rw [List.pairwise_append] at hpw
  rcases List.mem_append.mp hx with h1 | h2
  · exact absurd (hpw.2.2 x h1 a (by simp)) (by omega)
  · rcases List.mem_cons.mp h2 with rfl | h2'
    · omega
    · rcases List.mem_cons.mp h2' with rfl | h2''
      · omega
      · have := List.rel_of_pairwise_cons (List.pairwise_cons.mp hpw.2.1).2 h2''
        omega

lemma consecutive_of_adjacent :
    ∀ (l : List ℕ) (a b : ℕ), l.Pairwise (· < ·) → a ∈ l → b ∈ l → a < b →
      (∀ x ∈ l, ¬(a < x ∧ x < b)) → Consecutive a b l := by
  intro l
  induction l with
  | nil => intro a b _ ha _ _ _; simp at ha
  | cons c t ih =>
    intro a b hpw ha hb hab hmid
    rcases List.mem_cons.mp ha with rfl | hat
    · -- the head of the list is `a`
      have hbt : b ∈ t := by
        rcases List.mem_cons.mp hb with rfl | h
        · omega
        · exact h
      cases t with
      | nil => simp at hbt
      | cons d t' =>
        have hcd : a < d := (List.pairwise_cons.mp hpw).1 d (by simp)
        have hdb : d = b := by
          by_contra hne
          have hbt' : b ∈ t' := by
            rcases List.mem_cons.mp hbt with h | h
            · exact absurd h.symm hne
            · exact h
          have hdb' : d < b :=
            List.rel_of_pairwise_cons (List.pairwise_cons.mp hpw).2 hbt'
          exact hmid d (by simp) ⟨hcd, hdb'⟩
        subst hdb
        exact ⟨[], t', rfl⟩
    · -- `a` lies in the tail, so `b` does as well and the head is below both
      have hbt : b ∈ t := by
        rcases List.mem_cons.mp hb with rfl | h
        · have := (List.pairwise_cons.mp hpw).1 a hat
          omega
        · exact h
      exact (ih a b (List.pairwise_cons.mp hpw).2 hat hbt hab
        fun x hx => hmid x (List.mem_cons_of_mem _ hx)).cons

/-! ## Helper lemmas: `knownIndices` and the batch interpolators -/

lemma knownIndices_pairwise (values : List (Option ℚ)) :
    (knownIndices values).Pairwise (· < ·) :=
  (List.pairwise_lt_range _).filter _

lemma mem_knownIndices {values : List (Option ℚ)} {i : ℕ} :
    i ∈ knownIndices values ↔ i < values.length ∧ (values.getD i none).isSome := by
  simp [knownIndices, List.mem_filter, List.mem_range]

/--
Positions that no consecutive pair of known indices strictly covers are
returned unchanged by both batch interpolators (after the coercion).
-/
lemma batch_untouched (ids : List ℚ) (values : List (Option ℚ)) (cond : ℕ → ℕ → Bool) (j : ℕ)
    (h : ∀ p q, Consecutive p q (knownIndices values) → ¬(p < j ∧ j < q)) :
    (fillPairs ids values cond (knownIndices values) values).getD j none =
      values.getD j none :=
  fillPairs_untouched ids values cond _ _ j h

/-- A known position is never strictly covered by a consecutive pair of known indices. -/
lemma known_not_covered {values : List (Option ℚ)} {i : ℕ}
    (hi : (values.getD i none).isSome) (hlen : i < values.length) :
    ∀ p q, Consecutive p q (knownIndices values) → ¬(p < i ∧ i < q) := by
  intro p q hpq
  exact consecutive_no_mid (knownIndices_pairwise values) hpq i
    (mem_knownIndices.mpr ⟨hlen, hi⟩)

/-- Positions at or before which every value is NaN are never covered. -/
lemma leading_not_covered {values : List (Option ℚ)} {i : ℕ}
    (h : ∀ j, j ≤ i → values.getD j none = none) :
    ∀ p q, Consecutive p q (knownIndices values) → ¬(p < i ∧ i < q) := by
  intro p q hpq ⟨hpi, _⟩
  have hp := mem_knownIndices.mp hpq.mem₁
  rw [h p (Nat.le_of_lt hpi)] at hp
  simp at hp

/-- Positions at or after which every value is NaN are never covered. -/
lemma trailing_not_covered {values : List (Option ℚ)} {i : ℕ}
    (h : ∀ j, i ≤ j → values.getD j none = none) :
    ∀ p q, Consecutive p q (knownIndices values) → ¬(p < i ∧ i < q) := by
  intro p q hpq ⟨_, hiq⟩
  have hq := mem_knownIndices.mp hpq.mem₂
  rw [h q (Nat.le_of_lt hiq)] at hq
  simp at hq

/--
Bounding known indices of a gap are consecutive in `knownIndices`.
-/
lemma gap_consecutive {values : List (Option ℚ)} {a b : ℕ}
    (ha : (values.getD a none).isSome) (hb : (values.getD b none).isSome)
    (hab : a < b) (hblen : b < values.length)
    (hgap : ∀ j, a < j → j < b → values.getD j none = none) :
    Consecutive a b (knownIndices values) := by
  apply consecutive_of_adjacent _ _ _ (knownIndices_pairwise values)
    (mem_knownIndices.mpr ⟨Nat.lt_trans hab hblen, ha⟩)
    (mem_knownIndices.mpr ⟨hblen, hb⟩) hab
  intro x hx ⟨hax, hxb⟩
  have := (mem_knownIndices.mp hx).2
  rw [hgap x hax hxb] at this
  simp at this

/-! ## Claim C1: Conservative-Gap-Limited vs Linear -/

/--
**C1 (amended).**  For every masked series with a gap of `g = b - a - 1 ≥ 1`
consecutive unknown positions bounded by known points at indices `a < b`
(values non-negative, so the strategies' re-coercion keeps them), the
Conservative-Gap-Limited strategy produces the same values as Linear on
the gap exactly when the *distance* `b - a = g + 1` is at most `max_gap`
(i.e. `g ≤ max_gap - 1`; with the default `max_gap = 2` only single-point
gaps are bridged), and leaves every position of the gap as NaN when
`b - a > max_gap` (i.e. `g ≥ max_gap`).
-/
theorem C1_conservative_gap_amended
    (ids : List ℚ) (values0 : List (Option ℚ)) (max_gap a b : ℕ) (va vb : ℚ)
    (hva : values0.getD a none = some va) (hva0 : 0 ≤ va)
    (hvb : values0.getD b none = some vb) (hvb0 : 0 ≤ vb)
    (hab : a < b) (hblen : b < values0.length)
    (hgap : ∀ j, a < j → j < b → values0.getD j none = none)
    (hg : 2 ≤ b - a) :
    (b - a ≤ max_gap →
      ∀ j, a < j → j < b →
        (conservative_interpolation ids values0 max_gap).getD j none =
          (linear_interpolation ids values0).getD j none ∧
        (linear_interpolation ids values0).getD j none =
          some (interpValue ids (values0.map coerceValue) a b j)) ∧
    (max_gap < b - a →
      ∀ j, a < j → j < b →
        (conservative_interpolation ids values0 max_gap).getD j none = none) := by
  set values := values0.map coerceValue with hvalues
  have hva' : values.getD a none = some va := by
    rw [hvalues, getD_map_coerceValue, hva, coerceValue_some hva0]
  have hvb' : values.getD b none = some vb := by
    rw [hvalues, getD_map_coerceValue, hvb, coerceValue_some hvb0]
  have hgap' : ∀ j, a < j → j < b → values.getD j none = none := by
    intro j h1 h2
    rw [hvalues, getD_map_coerceValue, hgap j h1 h2, coerceValue_none]
  have hlen : values.length = values0.length := by simp [hvalues]
  have hcons : Consecutive a b (knownIndices values) :=
    gap_consecutive (by rw [hva']; rfl) (by rw [hvb']; rfl) hab (by omega) hgap'
  have hjlen : ∀ j, j < b → j < values.length := by omega
  have hlin : ∀ j, a < j → j < b →
      (linear_interpolation ids values0).getD j none =
        some (interpValue ids values a b j) := by
    intro j h1 h2
    show (fillPairs ids values _ (knownIndices values) values).getD j none = _
    rw [fillPairs_covered ids values _ (knownIndices values) values j a b
      (knownIndices_pairwise values) hcons h1 h2 (hjlen j h2)]
    rw [if_pos (by simpa using by omega)]
  refine ⟨fun hle j h1 h2 => ?_, fun hgt j h1 h2 => ?_⟩
  · refine ⟨?_, hlin j h1 h2⟩
    show (fillPairs ids values _ (knownIndices values) values).getD j none = _
    rw [fillPairs_covered ids values _ (knownIndices values) values j a b
      (knownIndices_pairwise values) hcons h1 h2 (hjlen j h2)]
    rw [if_pos (by simp only [Bool.and_eq_true, decide_eq_true_eq]; omega),
      hlin j h1 h2]
  · show (fillPairs ids values _ (knownIndices values) values).getD j none = _
    rw [fillPairs_covered ids values _ (knownIndices values) values j a b
      (knownIndices_pairwise values) hcons h1 h2 (hjlen j h2)]
    rw [if_neg (by simp only [Bool.and_eq_true, decide_eq_true_eq]; omega),
      hgap' j h1 h2]

/--
**C1 (counterexample).**  The claim as stated fails at `g = max_gap = 2`:
for the series `[1, NaN, NaN, 4]` on the axis `[0, 1, 2, 3]` the gap has
`g = 2 ≤ max_gap` unknown positions, yet Conservative-Gap-Limited leaves
position 1 as NaN while Linear reconstructs the value 2 there.
-/
theorem C1_counterexample :
    (conservative_interpolation [0, 1, 2, 3] [some 1, none, none, some 4] 2).getD 1 none =
      none ∧
    (linear_interpolation [0, 1, 2, 3] [some 1, none, none, some 4]).getD 1 none = some 2 := by
  constructor
  · norm_num [conservative_interpolation, fillPairs, fillSegment, knownIndices, coerceValue,
      interpValue, List.range_succ]
  · norm_num [linear_interpolation, fillPairs, fillSegment, knownIndices, coerceValue,
      interpValue, List.range_succ]

/-- **C1 (witness).**  The amended theorem applied to two concrete gaps. -/
theorem C1_witness :
    ((conservative_interpolation [0, 1, 2] [some 1, none, some 3] 2).getD 1 none =
      (linear_interpolation [0, 1, 2] [some 1, none, some 3]).getD 1 none) ∧
    (conservative_interpolation [0, 1, 2, 3] [some 2, none, none, some 5] 2).getD 2 none =
      none := by
  constructor
  · exact ((C1_conservative_gap_amended [0, 1, 2] [some 1, none, some 3] 2 0 2 1 3
      rfl (by norm_num) rfl (by norm_num) (by norm_num) (by norm_num)
      (fun j h1 h2 => by interval_cases j; rfl)
      (by norm_num)).1 (by norm_num) 1 (by norm_num) (by norm_num)).1
  · exact (C1_conservative_gap_amended [0, 1, 2, 3] [some 2, none, none, some 5] 2 0 3 2 5
      rfl (by norm_num) rfl (by norm_num) (by norm_num) (by norm_num)
      (fun j h1 h2 => by interval_cases j <;> rfl)
      (by norm_num)).2 (by norm_num) 2 (by norm_num) (by norm_num)

/-! ## Claim C8: fewer than 2 known points -/

lemma fillPairs_short (ids : List ℚ) (values : List (Option ℚ)) (cond : ℕ → ℕ → Bool)
    {l : List ℕ} (h : l.length < 2) (res : List (Option ℚ)) :
    fillPairs ids values cond l res = res := by
  match l, h with
  | [], _ => rfl
  | [a], _ => rfl

/--
**C8 (amended).**  With fewer than 2 known points the *streaming*
strategy dispatcher `interpolar` fills every output position with the
single known value (`y_known[0]`) when one exists and with NaN
otherwise; the *batch* strategies, by contrast, return the (coerced)
series unchanged — the single known value stays only at its own
position, every other position remains NaN, and no interpolation is
attempted in either path.
-/
theorem C8_few_points_amended :
    (∀ (spline : List ℚ → List ℚ → List ℚ → Option (List ℚ))
       (x_known y_known x_new : List ℚ) (metodo : String) (sensor_type : Option String),
      x_known.length < 2 →
        interpolar spline x_known y_known x_new metodo sensor_type =
          x_new.map fun _ => y_known.head?) ∧
    (∀ (ids : List ℚ) (values0 : List (Option ℚ)),
      (knownIndices (values0.map coerceValue)).length < 2 →
        linear_interpolation ids values0 = values0.map coerceValue ∧
        ∀ max_gap, conservative_interpolation ids values0 max_gap = values0.map coerceValue) := by
  constructor
  · intro spline x_known y_known x_new metodo sensor_type h
    rw [interpolar, if_pos h]
  · intro ids values0 h
    exact ⟨fillPairs_short _ _ _ h _, fun max_gap => fillPairs_short _ _ _ h _⟩

/--
**C8 (counterexample).**  The claim as stated fails for the batch
strategies: on the axis `[0, 1]` with the single known value 5 at
position 1, `linear_interpolation` returns `[NaN, 5]` — position 0 does
*not* take the single known value 5.
-/
theorem C8_counterexample :
    linear_interpolation [0, 1] [none, some 5] = [none, some 5] := by
  norm_num [linear_interpolation, fillPairs, knownIndices, coerceValue, List.range_succ]

/-- **C8 (witness).**  The amended theorem applied to concrete inputs from both paths. -/
theorem C8_witness :
    interpolar (fun _ _ _ => none) [5] [3] [1, 2] "linear" none = [some 3, some 3] ∧
    linear_interpolation [0, 1] [some 2, none] = [some 2, none] := by
  constructor
  · rw [C8_few_points_amended.1 (fun _ _ _ => none) [5] [3] [1, 2] "linear" none
      (by norm_num)]
    rfl
  · rw [(C8_few_points_amended.2 [0, 1] [some 2, none]
      (by norm_num [knownIndices, coerceValue, List.range_succ])).1]
    norm_num [coerceValue]

/-! ## Helper lemmas: `np_interp` and the streaming dispatcher -/

lemma np_interp_point_knot :
    ∀ (xp fp : List ℚ) (i : ℕ), xp.Pairwise (· < ·) → xp.length = fp.length →
      i < xp.length → np_interp_point (xp.getD i 0) xp fp = fp.getD i 0 := by
  intro xp
  induction xp with
  | nil => intro fp i _ _ hi; simp at hi
  | cons x0 xp' ih =>
    intro fp i hpw hlen hi
    cases fp with
    | nil => simp at hlen
    | cons f0 fp' =>
      cases xp' with
      | nil =>
        have : i = 0 := by simpa using hi
        subst this
        simp [np_interp_point]
      | cons x1 xp'' =>
        cases fp' with
        | nil => simp at hlen
        | cons f1 fp'' =>
          have hx01 : x0 < x1 := (List.pairwise_cons.mp hpw).1 x1 (by simp)
          cases i with
          | zero => simp [np_interp_point]
          | succ i' =>
            have hx1t : x1 ≤ (x1 :: xp'').getD i' 0 := by
              cases i' with
              | zero => simp
              | succ i'' =>
                rw [List.getD_cons_succ,
                  List.getD_eq_getElem xp'' 0 (by simpa using hi)]
                exact le_of_lt (List.rel_of_pairwise_cons
                  (List.pairwise_cons.mp hpw).2 (List.getElem_mem _))
            rw [List.getD_cons_succ, List.getD_cons_succ]
            cases i' with
            | zero =>
              have hgd : (x1 :: xp'').getD 0 0 = x1 := rfl
              rw [hgd]
              show np_interp_point x1 (x0 :: x1 :: xp'') (f0 :: f1 :: fp'') = _
              rw [np_interp_point, if_neg (by push_neg; exact hx01), if_pos le_rfl]
              rw [mul_div_assoc, div_self (sub_ne_zero.mpr hx01.ne'), mul_one]
              show f0 + (f1 - f0) = ([f1] ++ fp'').getD 0 0
              simp
            | succ i'' =>
              have hlt : x0 < (x1 :: xp'').getD (i'' + 1) 0 := by
                have := hx1t
                rw [List.getD_cons_succ] at this ⊢
                exact lt_of_lt_of_le hx01 this
              have hlt1 : x1 < (x1 :: xp'').getD (i'' + 1) 0 := by
                rw [List.getD_cons_succ,
                  List.getD_eq_getElem xp'' 0 (by simpa using hi)]
                exact List.rel_of_pairwise_cons
                  (List.pairwise_cons.mp hpw).2 (List.getElem_mem _)
              show np_interp_point ((x1 :: xp'').getD (i'' + 1) 0)
                (x0 :: x1 :: xp'') (f0 :: f1 :: fp'') = _
              rw [np_interp_point, if_neg (by push_neg; exact hlt),
                if_neg (by push_neg; exact hlt1)]
              exact ih (f1 :: fp'') (i'' + 1) (List.pairwise_cons.mp hpw).2
                (by simpa using hlen) (by simpa using hi)

lemma interpolar_length (spline : List ℚ → List ℚ → List ℚ → Option (List ℚ))
    (hspline : ∀ a b c r, spline a b c = some r → r.length = c.length)
    (x_known y_known x_new : List ℚ) (metodo : String) (sensor_type : Option String) :
    (interpolar spline x_known y_known x_new metodo sensor_type).length = x_new.length := by
  rw [interpolar]
  split_ifs with h1 h2 h3
  · simp
  · simp [np_interp]
  · cases hs : spline x_known y_known x_new with
    | none => simp [np_interp]
    | some y => simp [hspline _ _ _ _ hs]
  · simp [np_interp]

lemma interpolar_linear_knot (spline : List ℚ → List ℚ → List ℚ → Option (List ℚ))
    (x_known y_known x_new : List ℚ) (sensor_type : Option String) {i j : ℕ}
    (hpw : x_known.Pairwise (· < ·)) (hlen : x_known.length = y_known.length)
    (hi : i < x_known.length) (hj : j < x_new.length)
    (ht : x_new.getD j 0 = x_known.getD i 0) :
    (interpolar spline x_known y_known x_new "linear" sensor_type).getD j none =
      some (y_known.getD i 0) := by
  rw [interpolar]
  by_cases h1 : x_known.length < 2
  · rw [if_pos h1]
    have hxlen : x_known.length = 1 := by omega
    obtain ⟨y0, rfl⟩ : ∃ y0, y_known = [y0] :=
      List.length_eq_one.mp (by omega)
    have hi0 : i = 0 := by omega
    subst hi0
    rw [getD_map_of_lt _ _ hj 0]
    rfl
  · rw [if_neg h1, if_neg (by decide), if_neg (fun hc => by
      exact absurd hc.1 (by decide))]
    rw [np_interp, List.map_map, getD_map_of_lt _ _ hj 0]
    show some (np_interp_point (x_new.getD j 0) x_known y_known) = _
    rw [ht, np_interp_point_knot x_known y_known i hpw hlen hi]

lemma regular_times_bounds (start stop step : ℚ) (hstep : 0 < step) (hss : start ≤ stop) :
    ∀ t ∈ regular_times start stop step, start ≤ t ∧ t ≤ stop := by
  intro t ht
  rw [regular_times] at ht
  obtain ⟨k, hk, rfl⟩ := List.mem_map.mp ht
  have hk' : k ≤ Nat.floor ((stop - start) / step) := by
    have := List.mem_range.mp hk
    omega
  have hknn : (0 : ℚ) ≤ (k : ℚ) * step :=
    mul_nonneg (by positivity) (le_of_lt hstep)
  refine ⟨by linarith, ?_⟩
  have h1 : (k : ℚ) ≤ (stop - start) / step := by
    calc (k : ℚ) ≤ (Nat.floor ((stop - start) / step) : ℚ) := by exact_mod_cast hk'
    _ ≤ (stop - start) / step :=
      Nat.floor_le (div_nonneg (by linarith) (le_of_lt hstep))
  have h2 : (k : ℚ) * step ≤ stop - start := by
    have := mul_le_mul_of_nonneg_right h1 (le_of_lt hstep)
    rwa [div_mul_cancel₀ _ (ne_of_gt hstep)] at this
  linarith

lemma linear_interpolation_length (ids : List ℚ) (values0 : List (Option ℚ)) :
    (linear_interpolation ids values0).length = values0.length := by
  show (fillPairs _ _ _ _ _).length = _
  rw [fillPairs_length]
  simp

lemma conservative_interpolation_length (ids : List ℚ) (values0 : List (Option ℚ))
    (max_gap : ℕ) :
    (conservative_interpolation ids values0 max_gap).length = values0.length := by
  show (fillPairs _ _ _ _ _).length = _
  rw [fillPairs_length]
  simp

/-! ## Claim C7: known values preserved, no extrapolation -/

/--
**C7 (amended).**  Output lengths are as expected (batch strategies:
input length; streaming dispatcher: query-grid length, given that the
spline model returns grid-length outputs).  For batch series whose known
values are non-negative — i.e. values the strategies' numeric
re-coercion accepts — every known position is preserved exactly; a
position with only NaN at and before it (resp. at and after it) remains
NaN, so the batch strategies never extrapolate beyond the outermost
known position.  On the streaming path, the resample grid of
`obter_dados_interpolados` lies entirely within `[start, stop]` — the
min/max of the known axis — so no position beyond the outermost known
point is ever produced, and the linear streaming method reproduces a
known value exactly at any grid point that coincides with its timestamp.
(Known values *rejected* by the batch re-coercion, e.g. negative
numbers, are treated as unknown and are not preserved; see the
counterexample.)
-/
theorem C7_preserve_no_extrapolation_amended :
    (∀ (ids : List ℚ) (values0 : List (Option ℚ)),
      (linear_interpolation ids values0).length = values0.length) ∧
    (∀ (ids : List ℚ) (values0 : List (Option ℚ)) (max_gap : ℕ),
      (conservative_interpolation ids values0 max_gap).length = values0.length) ∧
    (∀ (ids : List ℚ) (values0 : List (Option ℚ)) (i : ℕ) (q : ℚ),
      (∀ r : ℚ, some r ∈ values0 → 0 ≤ r) → values0.getD i none = some q →
        (linear_interpolation ids values0).getD i none = some q ∧
        ∀ max_gap, (conservative_interpolation ids values0 max_gap).getD i none = some q) ∧
    (∀ (ids : List ℚ) (values0 : List (Option ℚ)) (i : ℕ),
      (∀ j, j ≤ i → values0.getD j none = none) →
        (linear_interpolation ids values0).getD i none = none ∧
        ∀ max_gap, (conservative_interpolation ids values0 max_gap).getD i none = none) ∧
    (∀ (ids : List ℚ) (values0 : List (Option ℚ)) (i : ℕ),
      (∀ j, i ≤ j → values0.getD j none = none) →
        (linear_interpolation ids values0).getD i none = none ∧
        ∀ max_gap, (conservative_interpolation ids values0 max_gap).getD i none = none) ∧
    (∀ start stop step : ℚ, 0 < step → start ≤ stop →
      ∀ t ∈ regular_times start stop step, start ≤ t ∧ t ≤ stop) ∧
    (∀ (spline : List ℚ → List ℚ → List ℚ → Option (List ℚ))
       (x_known y_known x_new : List ℚ) (sensor_type : Option String) (i j : ℕ),
      x_known.Pairwise (· < ·) → x_known.length = y_known.length →
      i < x_known.length → j < x_new.length → x_new.getD j 0 = x_known.getD i 0 →
        (interpolar spline x_known y_known x_new "linear" sensor_type).getD j none =
          some (y_known.getD i 0)) ∧
    (∀ spline, (∀ a b c r, spline a b c = some r → r.length = c.length) →
      ∀ (x_known y_known x_new : List ℚ) (metodo : String) (sensor_type : Option String),
        (interpolar spline x_known y_known x_new metodo sensor_type).length =
          x_new.length) := by
  refine ⟨linear_interpolation_length, conservative_interpolation_length,
    ?_, ?_, ?_, regular_times_bounds,
    fun spline xk yk xn s i j hpw hlen hi hj ht =>
      interpolar_linear_knot spline xk yk xn s hpw hlen hi hj ht,
    fun spline hs xk yk xn m s => interpolar_length spline hs xk yk xn m s⟩
  · -- known positions with non-negative values are preserved
    intro ids values0 i q hnn hq
    have hmap : values0.map coerceValue = values0 := map_coerceValue_id hnn
    have hlen : i < values0.length := lt_length_of_getD_eq_some hq
    have huntouched :
        ∀ p p', Consecutive p p' (knownIndices (values0.map coerceValue)) →
          ¬(p < i ∧ i < p') := by
      rw [hmap]
      exact known_not_covered (by rw [hq]; rfl) hlen
    constructor
    · show (fillPairs _ _ _ _ _).getD i none = _
      rw [batch_untouched _ _ _ i huntouched, hmap, hq]
    · intro max_gap
      show (fillPairs _ _ _ _ _).getD i none = _
      rw [batch_untouched _ _ _ i huntouched, hmap, hq]
  · -- positions before the first known position stay NaN
    intro ids values0 i h
    have h' : ∀ j, j ≤ i → (values0.map coerceValue).getD j none = none := by
      intro j hj
      rw [getD_map_coerceValue, h j hj, coerceValue_none]
    have huntouched := leading_not_covered h'
    constructor
    · show (fillPairs _ _ _ _ _).getD i none = _
      rw [batch_untouched _ _ _ i huntouched, h' i le_rfl]
    · intro max_gap
      show (fillPairs _ _ _ _ _).getD i none = _
      rw [batch_untouched _ _ _ i huntouched, h' i le_rfl]
  · -- positions after the last known position stay NaN
    intro ids values0 i h
    have h' : ∀ j, i ≤ j → (values0.map coerceValue).getD j none = none := by
      intro j hj
      rw [getD_map_coerceValue, h j hj, coerceValue_none]
    have huntouched := trailing_not_covered h'
    constructor
    · show (fillPairs _ _ _ _ _).getD i none = _
      rw [batch_untouched _ _ _ i huntouched, h' i le_rfl]
    · intro max_gap
      show (fillPairs _ _ _ _ _).getD i none = _
      rw [batch_untouched _ _ _ i huntouched, h' i le_rfl]

/--
**C7 (counterexample).**  The claim as stated fails: the masked series
`[1, -2, 3]` (axis `[0, 1, 2]`) has a *known* value `-2` at position 1,
but the batch linear strategy's numeric re-coercion (`isdigit` rejects a
leading minus sign) turns it into NaN and then bridges the position from
its neighbours: the output value at the known position 1 is 2, not the
exact input value `-2`.
-/
theorem C7_counterexample :
    (linear_interpolation [0, 1, 2] [some 1, some (-2), some 3]).getD 1 none = some 2 := by
  norm_num [linear_interpolation, fillPairs, fillSegment, knownIndices, coerceValue,
    interpValue, List.range_succ]

/-- **C7 (witness).**  The amended theorem applied to concrete inputs. -/
theorem C7_witness :
    (linear_interpolation [0, 1, 2] [some 1, none, some 3]).getD 0 none = some 1 ∧
    (linear_interpolation [0, 1, 2] [none, some 1, some 2]).getD 0 none = none ∧
    (linear_interpolation [0, 1, 2] [some 1, some 2, none]).getD 2 none = none ∧
    ((0 : ℚ) ≤ 5 ∧ (5 : ℚ) ≤ 10) ∧
    (interpolar (fun _ _ _ => none) [0, 2] [5, 6] [0, 1, 2] "linear" none).getD 2 none =
      some 6 := by
  refine ⟨?_, ?_, ?_, ?_, ?_⟩
  · exact (C7_preserve_no_extrapolation_amended.2.2.1 [0, 1, 2] [some 1, none, some 3] 0 1
      (by intro r hr; simp at hr; rcases hr with rfl | rfl <;> norm_num) rfl).1
  · exact (C7_preserve_no_extrapolation_amended.2.2.2.1 [0, 1, 2] [none, some 1, some 2] 0
      (by intro j hj; interval_cases j; rfl)).1
  · exact (C7_preserve_no_extrapolation_amended.2.2.2.2.1 [0, 1, 2] [some 1, some 2, none] 2
      (by intro j hj; rcases Nat.lt_or_ge j 3 with h | h
          · interval_cases j; rfl
          · exact List.getD_eq_default _ _ (by simpa using h))).1
  · exact C7_preserve_no_extrapolation_amended.2.2.2.2.2.1 0 10 5 (by norm_num) (by norm_num)
      5 (by rw [regular_times]
            refine List.mem_map.mpr ⟨1, List.mem_range.mpr ?_, by norm_num⟩
            have : Nat.floor ((10 - 0 : ℚ) / 5) = 2 := by
              rw [show ((10 - 0 : ℚ) / 5) = 2 by norm_num]
              exact Nat.floor_ofNat 2
            omega)
  · exact C7_preserve_no_extrapolation_amended.2.2.2.2.2.2.1 (fun _ _ _ => none)
      [0, 2] [5, 6] [0, 1, 2] none 1 2 (by norm_num) rfl (by norm_num) (by norm_num) rfl

/-! ## Claim C2: the two "logarithmic" pH strategies -/

lemma interpolar_logaritmica_at_middle (c : ℝ) :
    (interpolar_logaritmica_npontos [6, c, 7] 2).getD 1 0 =
      -Real.logb 10 ((11 : ℝ) / 20000000) := by
  have h6 : (10:ℝ) ^ (-(6:ℝ)) = 1/1000000 := by
    rw [show (-(6:ℝ)) = -((6:ℕ):ℝ) by norm_num, Real.rpow_neg (by norm_num),
      Real.rpow_natCast]
    norm_num
  have h7 : (10:ℝ) ^ (-(7:ℝ)) = 1/10000000 := by
    rw [show (-(7:ℝ)) = -((7:ℕ):ℝ) by norm_num, Real.rpow_neg (by norm_num),
      Real.rpow_natCast]
    norm_num
  rw [interpolar_logaritmica_npontos]
  rw [show List.range ([6, c, 7] : List ℝ).length = [0, 1, 2] from rfl]
  simp only [List.map_cons, List.map_nil, List.getD_cons_succ, List.getD_cons_zero]
  norm_num [h6, h7]

lemma logb_middle_bounds :
    6 < -Real.logb 10 ((11 : ℝ) / 20000000) ∧
    -Real.logb 10 ((11 : ℝ) / 20000000) < 7 ∧
    -Real.logb 10 ((11 : ℝ) / 20000000) ≠ 13 / 2 := by
  have hpos : (0 : ℝ) < 11 / 20000000 := by norm_num
  have hb : (1 : ℝ) < 10 := by norm_num
  have h6 : (10:ℝ) ^ (-(6:ℝ)) = 1/1000000 := by
    rw [show (-(6:ℝ)) = -((6:ℕ):ℝ) by norm_num, Real.rpow_neg (by norm_num),
      Real.rpow_natCast]
    norm_num
  have h7 : (10:ℝ) ^ (-(7:ℝ)) = 1/10000000 := by
    rw [show (-(7:ℝ)) = -((7:ℕ):ℝ) by norm_num, Real.rpow_neg (by norm_num),
      Real.rpow_natCast]
    norm_num
  refine ⟨?_, ?_, ?_⟩
  · have : Real.logb 10 ((11:ℝ)/20000000) < -6 := by
      rw [Real.logb_lt_iff_lt_rpow hb hpos, h6]
      norm_num
    linarith
  · have : (-7 : ℝ) < Real.logb 10 ((11:ℝ)/20000000) := by
      rw [Real.lt_logb_iff_rpow_lt hb hpos, h7]
      norm_num
    linarith
  · intro heq
    have hlogb : Real.logb 10 ((11:ℝ)/20000000) = -(13/2) := by linarith
    have hh : (10:ℝ) ^ (-(13/2) : ℝ) = (11:ℝ)/20000000 := by
      rw [← hlogb]
      exact Real.rpow_logb (by norm_num) (by norm_num) hpos
    have hsq : ((10:ℝ) ^ (-(13/2) : ℝ)) ^ (2:ℕ) = (10:ℝ) ^ (-(13:ℝ)) := by
      rw [← Real.rpow_natCast ((10:ℝ) ^ (-(13/2) : ℝ)) 2, ← Real.rpow_mul (by norm_num)]
      norm_num
    have h13 : (10:ℝ) ^ (-(13:ℝ)) = 1/10000000000000 := by
      rw [show (-(13:ℝ)) = -((13:ℕ):ℝ) by norm_num, Real.rpow_neg (by norm_num),
        Real.rpow_natCast]
      norm_num
    rw [hh, h13] at hsq
    norm_num at hsq

/--
**C2 (amended).**  The streaming-path `'logarithmic'` method
(`InterpoladorSeletivo.interpolar`) does *not* convert pH to
hydrogen-ion concentration: with at least 2 known points it is plain
linear interpolation of the pH values on the time axis, clamped to
`[0, 14]` — so for pH endpoints 6.0 and 7.0 at positions 0 and 2 it
returns exactly the arithmetic mean 6.5 at position 1.  The
concentration-space algorithm the claim describes (`10 ** (-pH)`,
linear interpolation of concentrations, `-log10` back, *no* clamp) is
implemented only by the batch graphing script's
`interpolar_logaritmica_npontos`, where the same endpoints give a value
strictly between 6.0 and 7.0 and different from 6.5.
-/
theorem C2_logarithmic_amended :
    (∀ (spline : List ℚ → List ℚ → List ℚ → Option (List ℚ))
       (x_known y_known x_new : List ℚ) (sensor_type : Option String),
      ¬x_known.length < 2 →
        interpolar spline x_known y_known x_new "logarithmic" sensor_type =
          (np_interp x_new x_known y_known).map fun v => some (np_clip 0 14 v)) ∧
    (∀ c : ℝ,
      6 < (interpolar_logaritmica_npontos [6, c, 7] 2).getD 1 0 ∧
      (interpolar_logaritmica_npontos [6, c, 7] 2).getD 1 0 < 7 ∧
      (interpolar_logaritmica_npontos [6, c, 7] 2).getD 1 0 ≠ 13 / 2) := by
  constructor
  · intro spline x_known y_known x_new sensor_type h
    rw [interpolar, if_neg h, if_pos rfl]
  · intro c
    rw [interpolar_logaritmica_at_middle c]
    exact logb_middle_bounds

/--
**C2 (counterexample).**  The claim as stated fails on the streaming
path it names: for pH endpoints 6.0 and 7.0 at positions 0 and 2, the
streaming `'logarithmic'` strategy reconstructs position 1 as exactly
the arithmetic mean 6.5 (`13/2`) — not a value different from 6.5.
-/
theorem C2_counterexample :
    interpolar (fun _ _ _ => none) [0, 2] [6, 7] [1] "logarithmic" (some "ph") =
      [some (13 / 2)] := by
  norm_num [interpolar, np_interp, np_interp_point, np_clip]

/-- **C2 (witness).**  The amended theorem's streaming characterization at a concrete input. -/
theorem C2_witness :
    interpolar (fun _ _ _ => none) [0, 2] [6, 7] [1] "logarithmic" (some "ph") =
      (np_interp [1] [0, 2] [6, 7]).map fun v => some (np_clip 0 14 v) :=
  C2_logarithmic_amended.1 (fun _ _ _ => none) [0, 2] [6, 7] [1] (some "ph") (by norm_num)

/-! ## Claims C4, C5: quality metrics -/

lemma zip_take_min {α β : Type} :
    ∀ (x : List α) (y : List β),
      x.zip y = (x.take (min x.length y.length)).zip (y.take (min x.length y.length)) := by
  intro x
  induction x with
  | nil => intro y; simp
  | cons a x' ih =>
    intro y
    cases y with
    | nil => simp
    | cons b y' =>
      simp only [List.zip_cons_cons, List.length_cons]
      rw [show min (x'.length + 1) (y'.length + 1) = min x'.length y'.length + 1 by omega]
      simp only [List.take_succ_cons, List.zip_cons_cons]
      rw [← ih]

lemma cleanPairs_take (y_true y_pred : List (Option ℚ)) :
    cleanPairs y_true y_pred =
      cleanPairs (y_true.take (min y_true.length y_pred.length))
        (y_pred.take (min y_true.length y_pred.length)) := by
  rw [cleanPairs, cleanPairs, ← zip_take_min]

/--
**C4 (amended).**  Mismatched series lengths are *not* surfaced to the
caller as an error: both metrics silently pair indices only up to the
shorter length (`range(min(len(y_true), len(y_pred)))`), so `r2_score`
and `rmse` depend only on the common-length prefixes of their inputs and
always return a numeric or NaN result.
-/
theorem C4_mismatched_lengths_amended (y_true y_pred : List (Option ℚ)) :
    r2_score y_true y_pred =
      r2_score (y_true.take (min y_true.length y_pred.length))
        (y_pred.take (min y_true.length y_pred.length)) ∧
    rmse y_true y_pred =
      rmse (y_true.take (min y_true.length y_pred.length))
        (y_pred.take (min y_true.length y_pred.length)) := by
  constructor
  · rw [r2_score, r2_score, ← cleanPairs_take]
  · rw [rmse, rmse, rmse_radicand, rmse_radicand, ← cleanPairs_take]

/--
**C4 (counterexample).**  The claim as stated fails: for inputs of
lengths 3 and 2 both metrics return a numeric result (no error is
raised) — `r2_score` returns 1.0 and `rmse` returns 0.0, computed on the
length-2 common prefix.
-/
theorem C4_counterexample :
    r2_score [some 1, some 2, some 3] [some 1, some 2] = some 1 ∧
    rmse [some 1, some 2, some 3] [some 1, some 2] = some 0 := by
  have hcp : cleanPairs [some 1, some 2, some 3] [some 1, some 2] = [(1, 1), (2, 2)] := rfl
  constructor
  · rw [r2_score, hcp]
    norm_num
  · have h : rmse_radicand [some 1, some 2, some 3] [some 1, some 2] = some 0 := by
      rw [rmse_radicand, hcp]
      norm_num
    rw [rmse, h]
    simp

lemma zip_self {α : Type} (l : List α) : l.zip l = l.map fun v => (v, v) := by
  induction l with
  | nil => rfl
  | cons a l' ih => simp [ih]

lemma cleanPairs_self (x : List (Option ℚ)) :
    cleanPairs x x = x.filterMap fun v => v.map fun a => (a, a) := by
  rw [cleanPairs, zip_self, List.filterMap_map]
  congr 1
  funext v
  cases v <;> rfl

lemma mem_cleanPairs_self {x : List (Option ℚ)} {p : ℚ × ℚ}
    (hp : p ∈ cleanPairs x x) : p.1 = p.2 := by
  rw [cleanPairs_self] at hp
  obtain ⟨v, _, hv⟩ := List.mem_filterMap.mp hp
  cases v with
  | none => simp at hv
  | some a =>
    simp only [Option.map_some'] at hv
    rw [← Option.some.injEq] at hv
    cases hv
    rfl

lemma cleanPairs_self_mem {x : List (Option ℚ)} {a : ℚ} (h : some a ∈ x) :
    (a, a) ∈ cleanPairs x x := by
  rw [cleanPairs_self]
  exact List.mem_filterMap.mpr ⟨some a, h, rfl⟩

lemma r2_score_perfect (y_true y_pred : List (Option ℚ))
    (hlen : 2 ≤ (cleanPairs y_true y_pred).length)
    (hperf : ∀ p ∈ cleanPairs y_true y_pred, p.1 = p.2) :
    r2_score y_true y_pred = some 1 := by
  have hss : ((cleanPairs y_true y_pred).map fun p => (p.1 - p.2) ^ 2).sum = 0 := by
    apply List.sum_eq_zero
    intro z hz
    obtain ⟨p, hp, rfl⟩ := List.mem_map.mp hz
    rw [hperf p hp]
    ring
  rw [r2_score, if_neg (by omega)]
  dsimp only
  rw [hss]
  split_ifs with h h2
  · rfl
  · exact absurd rfl h2
  · rw [zero_div, sub_zero]

/--
**C5.**  `r2_score` pairs only positions where both values are valid
numbers and returns NaN when fewer than 2 valid pairs remain; any
reconstruction equal to the original on every valid pair scores exactly
1.0 — including a constant original, where the zero-variance rule
`ss_tot == 0 → (1.0 if ss_res == 0 else 0.0)` applies; in particular
`r2_score x x = 1.0` for every series `x` containing at least 2 distinct
finite values.
-/
theorem C5_r2_properties :
    (∀ y_true y_pred : List (Option ℚ),
      (cleanPairs y_true y_pred).length < 2 → r2_score y_true y_pred = none) ∧
    (∀ y_true y_pred : List (Option ℚ),
      2 ≤ (cleanPairs y_true y_pred).length →
      (∀ p ∈ cleanPairs y_true y_pred, p.1 = p.2) →
      r2_score y_true y_pred = some 1) ∧
    (∀ (x : List (Option ℚ)) (a b : ℚ),
      some a ∈ x → some b ∈ x → a ≠ b → r2_score x x = some 1) := by
  refine ⟨?_, fun yt yp => r2_score_perfect yt yp, ?_⟩
  · intro y_true y_pred h
    rw [r2_score, if_pos h]
  · intro x a b ha hb hab
    apply r2_score_perfect
    · exact two_le_length_of_mem_ne (cleanPairs_self_mem ha) (cleanPairs_self_mem hb)
        (by simpa using hab)
    · intro p hp
      exact mem_cleanPairs_self hp

/-- **C5 (witness).**  The theorem applied to concrete series. -/
theorem C5_witness :
    r2_score [some 1, some 2] [some 1, some 2] = some 1 ∧
    r2_score [some 1] [some 1] = none := by
  constructor
  · exact C5_r2_properties.2.2 [some 1, some 2] 1 2 (by simp) (by simp) (by norm_num)
  · apply C5_r2_properties.1
    rw [show cleanPairs [some 1] [some 1] = [(1, 1)] from rfl]
    norm_num

/-! ## Claim C6: efficiency scoring -/

/--
**C6 (amended).**  The efficiency score is 0 when `r2` is NaN or
negative, and otherwise equals
`r2 * log(1 / (transmitted_fraction_percent / 100 + 0.01))`.  At fixed
*positive* `r2` the score is strictly larger for a smaller (non-negative)
transmitted fraction — in particular
`efficiency(0.95, 10) > efficiency(0.95, 50)` — while at `r2 = 0` the
score is 0 for every transmitted fraction (so strictness fails there);
`efficiency(-0.1, anything) = 0`.
-/
theorem C6_efficiency_amended :
    (∀ p : ℝ, calcular_eficiencia none p = 0) ∧
    (∀ (r p : ℝ), r < 0 → calcular_eficiencia (some r) p = 0) ∧
    (∀ (r p : ℝ), 0 ≤ r →
      calcular_eficiencia (some r) p = r * Real.log (1 / (p / 100 + 0.01))) ∧
    (∀ (r p1 p2 : ℝ), 0 < r → 0 ≤ p1 → p1 < p2 →
      calcular_eficiencia (some r) p2 < calcular_eficiencia (some r) p1) ∧
    (∀ p1 p2 : ℝ, calcular_eficiencia (some 0) p1 = calcular_eficiencia (some 0) p2) := by
  have hval : ∀ (r p : ℝ), 0 ≤ r →
      calcular_eficiencia (some r) p = r * Real.log (1 / (p / 100 + 0.01)) := by
    intro r p hr
    rw [calcular_eficiencia, if_neg (not_lt.mpr hr)]
  refine ⟨fun p => rfl, ?_, hval, ?_, ?_⟩
  · intro r p hr
    rw [calcular_eficiencia, if_pos hr]
  · intro r p1 p2 hr hp1 h12
    rw [hval r p1 (le_of_lt hr), hval r p2 (le_of_lt hr)]
    have ha : (0 : ℝ) < p1 / 100 + 0.01 := by positivity
    have hb : (0 : ℝ) < p2 / 100 + 0.01 := by linarith
    have hinv : 1 / (p2 / 100 + 0.01) < 1 / (p1 / 100 + 0.01) :=
      one_div_lt_one_div_of_lt ha (by linarith)
    have hlog : Real.log (1 / (p2 / 100 + 0.01)) < Real.log (1 / (p1 / 100 + 0.01)) :=
      Real.log_lt_log (by positivity) hinv
    exact mul_lt_mul_of_pos_left hlog hr
  · intro p1 p2
    rw [hval 0 p1 le_rfl, hval 0 p2 le_rfl, zero_mul, zero_mul]

/--
**C6 (counterexample).**  The claim's strictness fails at the
non-negative value `r2 = 0`: with transmitted fractions 10 and 50 the
scores are both 0, not strictly ordered.
-/
theorem C6_counterexample :
    calcular_eficiencia (some 0) 10 = 0 ∧ calcular_eficiencia (some 0) 50 = 0 := by
  constructor <;>
    · rw [calcular_eficiencia, if_neg (by norm_num), zero_mul]

/-- **C6 (witness).**  The amended theorem at the claim's own example values. -/
theorem C6_witness :
    calcular_eficiencia none 3 = 0 ∧
    calcular_eficiencia (some (-0.1)) 7 = 0 ∧
    calcular_eficiencia (some 0.95) 50 < calcular_eficiencia (some 0.95) 10 := by
  exact ⟨C6_efficiency_amended.1 3,
    C6_efficiency_amended.2.1 (-0.1) 7 (by norm_num),
    C6_efficiency_amended.2.2.2.1 0.95 10 50 (by norm_num) (by norm_num) (by norm_num)⟩

/-! ## Claim C3: transmitted fraction recorded by the simulation -/

/--
A 4-row dataset with the column layout the analysis pipeline itself uses
(`id`, `temperatura`, `ph`, `ec`, `od` — the columns named at lines 182
and 276 of the source); there is no column named `temp`.
-/
def df_sem_temp : DataFrame :=
  [("id", [Cell.num (some 1), Cell.num (some 2), Cell.num (some 3), Cell.num (some 4)]),
   ("temperatura",
    [Cell.num (some 20), Cell.num (some 21), Cell.num (some 22), Cell.num (some 23)]),
   ("ph", [Cell.num (some 6), Cell.num (some 7), Cell.num (some 6), Cell.num (some 7)]),
   ("ec", [Cell.num (some 1), Cell.num (some 1), Cell.num (some 1), Cell.num (some 1)]),
   ("od", [Cell.num (some 8), Cell.num (some 8), Cell.num (some 8), Cell.num (some 8)])]

/--
A 2-row dataset shaped like the example generator's output
(`criar_dataset_exemplo`, line 826): the temperature column is named
`temp` and its cells are raw comma-decimal strings, which the loader's
numeric conversion (line 182, list without `temp`) leaves as text.
-/
def df_com_temp : DataFrame :=
  [("id", [Cell.num (some 1), Cell.num (some 2)]),
   ("temp", [Cell.text "15,2", Cell.text "16,1"]),
   ("ph", [Cell.num (some 6), Cell.num (some 7)])]

/--
**C3 (code bug).**  The retained-count fraction itself
(`pontos_transmitidos / total * 100`, printed at line 287) behaves as
the claim says — interval 1 retains everything (100%) and interval 2
retains half (50%) of 4 rows.  But the value *recorded* into the
simulation results and used for efficiency ranking
(`percentual_transmitido`, lines 404-411) reads a column named `temp`:
on the pipeline's own column layout (`temperatura`, ...) it is 0 for
*every* interval, and on the example-generator layout (raw string
`temp` column, which is never masked and never NA) it is 100 for every
interval — in both cases it is not the retained fraction.
-/
theorem C3_recorded_fraction_bug :
    percentual_mask 4 1 = 100 ∧
    percentual_mask 4 2 = 50 ∧
    (∀ intervalo : ℕ,
      percentual_transmitido_recorded (simular_transmissao_intervalo intervalo df_sem_temp) =
        0) ∧
    percentual_transmitido_recorded (simular_transmissao_intervalo 2 df_com_temp) = 100 := by
  refine ⟨?_, ?_, ?_, ?_⟩
  · norm_num [percentual_mask, pontos_transmitidos_mask, List.range_succ]
  · norm_num [percentual_mask, pontos_transmitidos_mask, List.range_succ]
  · intro intervalo
    simp [percentual_transmitido_recorded, simular_transmissao_intervalo, findColumn,
      df_sem_temp, colunas_numericas]
  · have hsim : simular_transmissao_intervalo 2 df_com_temp =
        [("id", [Cell.num (some 1), Cell.num (some 2)]),
         ("temp", [Cell.text "15,2", Cell.text "16,1"]),
         ("ph", [Cell.num (some 6), Cell.num none])] := rfl
    have hfind : findColumn
        [("id", [Cell.num (some 1), Cell.num (some 2)]),
         ("temp", [Cell.text "15,2", Cell.text "16,1"]),
         ("ph", [Cell.num (some 6), Cell.num none])] "temp" =
        some [Cell.text "15,2", Cell.text "16,1"] := rfl
    rw [hsim, percentual_transmitido_recorded, hfind]
    norm_num [nrows, cellIsNA]

/-! ## Claims C9, C10: the streaming buffer -/

lemma adicionar_ponto_buffer (now : ℚ) (g : Gerenciador) (st : Sensor) (ts v : ℚ)
    (itp : String) :
    (adicionar_ponto now g st ts (some v) itp).sensor_data st =
      if 1000 < (g.sensor_data st ++ [SensorRow.mk ts v itp]).length then
        (g.sensor_data st ++ [SensorRow.mk ts v itp]).drop
          ((g.sensor_data st ++ [SensorRow.mk ts v itp]).length - 1000)
      else g.sensor_data st ++ [SensorRow.mk ts v itp] := by
  simp [adicionar_ponto, adicionar_ponto_body]

lemma foldl_adicionar_buffer (st : Sensor) (now : ℚ) :
    ∀ pts : List (ℚ × ℚ × String),
      (pts.foldl (fun g q => adicionar_ponto now g st q.1 (some q.2.1) q.2.2)
          initGerenciador).sensor_data st =
        (pts.map fun q => SensorRow.mk q.1 q.2.1 q.2.2).drop
          ((pts.map fun q => SensorRow.mk q.1 q.2.1 q.2.2).length - 1000) := by
  intro pts
  induction pts using List.reverseRecOn with
  | nil => rfl
  | append_singleton l q ih =>
    rw [List.foldl_append]
    simp only [List.foldl_cons, List.foldl_nil]
    rw [adicionar_ponto_buffer, ih, List.map_append]
    simp only [List.map_cons, List.map_nil]
    set rows := l.map fun q => SensorRow.mk q.1 q.2.1 q.2.2 with hrows
    set x : SensorRow := SensorRow.mk q.1 q.2.1 q.2.2 with hx
    have hlenx : (rows ++ [x]).length = rows.length + 1 := by
      rw [List.length_append, List.length_cons, List.length_nil]
    rcases Nat.lt_or_ge rows.length 1000 with hsmall | hbig
    · have h0 : rows.length - 1000 = 0 := by omega
      have h0' : (rows ++ [x]).length - 1000 = 0 := by omega
      rw [h0, List.drop_zero, h0', List.drop_zero]
      rw [if_neg (by omega)]
    · have hdlen : (rows.drop (rows.length - 1000)).length = 1000 := by
        rw [List.length_drop]
        omega
      have hlen2 : (rows.drop (rows.length - 1000) ++ [x]).length = 1001 := by
        rw [List.length_append, hdlen, List.length_cons, List.length_nil]
      rw [if_pos (by omega), hlen2, hlenx,
        show (1001 - 1000 : ℕ) = 1 from rfl,
        List.drop_append_of_le_length (by omega),
        List.drop_drop,
        List.drop_append_of_le_length (by omega),
        show rows.length - 1000 + 1 = rows.length + 1 - 1000 by omega]

/--
**C9.**  Starting from the empty buffer, after any sequence of
successful appends to one sensor the per-sensor frame holds exactly the
last `min n 1000` appended rows in arrival order — the suffix of the
arrival sequence obtained by dropping the `n - 1000` oldest rows.  Hence
the buffer never exceeds 1000 rows, eviction is oldest-first in FIFO
order without reordering, and appending 1001 points leaves exactly 1000
with the first (oldest) point evicted.
-/
theorem C9_buffer_capacity_fifo (st : Sensor) (now : ℚ) (pts : List (ℚ × ℚ × String)) :
    (pts.foldl (fun g q => adicionar_ponto now g st q.1 (some q.2.1) q.2.2)
        initGerenciador).sensor_data st =
      (pts.map fun q => SensorRow.mk q.1 q.2.1 q.2.2).drop (pts.length - 1000) ∧
    ((pts.foldl (fun g q => adicionar_ponto now g st q.1 (some q.2.1) q.2.2)
        initGerenciador).sensor_data st).length = min pts.length 1000 := by
  have h := foldl_adicionar_buffer st now pts
  rw [List.length_map] at h
  refine ⟨h, ?_⟩
  rw [h, List.length_drop, List.length_map]
  omega

/--
**C10.**  A call to `adicionar_ponto` whose value cannot be coerced to
float raises nothing and leaves the *entire* state unchanged: no row
(not even a NaN row) is appended to any sensor's frame, and
`messages_received` and `last_message_time` are not updated — the
`float(value)` failure happens while the new row is being built, before
any mutation, and the `except (ValueError, TypeError)` handler only logs.
-/
theorem C10_invalid_value_noop (now : ℚ) (g : Gerenciador) (st : Sensor) (ts : ℚ)
    (itp : String) :
    adicionar_ponto now g st ts none itp = g := rfl
